import Mathlib

/-!
Verification of the RockRawler crawler (src/RockRawler.go) against its
natural-language specification.

The file shallowly embeds the Go source: the pure string-processing
functions (`parseHeaders`, `extractHostname`'s caller logic, the scheme
defaulting, the subdomain URL-filter pattern, `appendResult`, `isUnique`,
the `CStartCrawler` marshalling loop) become Lean functions, and the
package-global `sync.Map` named `sm` becomes explicit state threaded
through crawl invocations.  The parts of the crawl performed by external
libraries (the colly fetch/parse engine and `net/url.Parse`) are
parametrised as an environment (`CrawlEnv`): the theorems quantify over
that environment, so they hold for every network behaviour.

Go standard-library string primitives used by the source
(`strings.HasPrefix`, `strings.Contains`, `strings.Split`,
`strings.SplitN`, `strings.TrimSpace`) are modelled on `List Char`.
-/

namespace RockRawler

/-- Models Go `strings.Contains s sub`: whether `sub` occurs as a
contiguous substring of `s`.  Go returns `true` for the empty substring,
as does this definition. -/
def containsSub (s sub : List Char) : Bool :=
  match s with
  | [] => sub.isEmpty
  | _ :: rest => sub.isPrefixOf s || containsSub rest sub

/-- Splits at the first occurrence of `sep` in `s`, returning the parts
before and after it (the separator removed) — the behaviour of Go
`strings.SplitN(s, sep, 2)` when `sep` occurs in `s`. -/
def splitFirst (sep : List Char) : List Char → Option (List Char × List Char)
  | [] => none
  | c :: rest =>
    if sep.isPrefixOf (c :: rest) then some ([], (c :: rest).drop sep.length)
    else
      match splitFirst sep rest with
      | some (pre, post) => some (c :: pre, post)
      | none => none

/-- Go `strings.SplitN(s, sep, 2)` as used in `parseHeaders`
(src lines 140 and 142): the call sites are guarded by
`strings.Contains`, so the separator is always present and the fallback
branch is unreachable there. -/
def splitFirstAt (sep s : List Char) : List Char × List Char :=
  match splitFirst sep s with
  | some p => p
  | none => (s, [])

/-- Go `strings.Split(s, sep)` for the two-character separator `";;"`
(src line 133): scans left to right, splitting at each non-overlapping
occurrence of the pair `a, b`.  `acc` holds the current piece reversed. -/
def splitOnPair (a b : Char) : List Char → List Char → List (List Char)
  | [], acc => [acc.reverse]
  | [c], acc => [(c :: acc).reverse]
  | c :: d :: rest, acc =>
    if c = a ∧ d = b then acc.reverse :: splitOnPair a b rest []
    else splitOnPair a b (d :: rest) (c :: acc)

/-- The Latin-1 fragment of Go `unicode.IsSpace`, which is what
`strings.TrimSpace` strips: space, `\t`, `\n`, vertical tab, form feed,
`\r`, NEL (U+0085) and NBSP (U+00A0).  Higher Unicode white-space code
points are not modelled; every input appearing in the claims is ASCII. -/
def isGoSpace (c : Char) : Bool :=
  c = ' ' || c = '\t' || c = '\n' || c.val = 11 || c.val = 12 ||
  c = '\r' || c.val = 0x85 || c.val = 0xA0

/-- Go `strings.TrimSpace`: drop white space from both ends. -/
def trimSpace (s : List Char) : List Char :=
  ((s.dropWhile isGoSpace).reverse.dropWhile isGoSpace).reverse

/-- Insertion into the Go map `headers` (src line 149).  A Go map is
modelled as an insertion-ordered association list; assignment to an
existing key overwrites its value (last write wins). -/
def mapInsert (m : List (String × String)) (k v : String) :
    List (String × String) :=
  if m.any (fun p => p.1 = k) then
    m.map (fun p => if p.1 = k then (k, v) else p)
  else m ++ [(k, v)]

/-- The error message of src line 129. -/
def malformedHeadersMsg : String :=
  "headers flag not formatted properly (no colon to separate header and value)"

/-- Embedding of `parseHeaders` (src lines 123-154).  Empty input yields
an empty map with no error; input without any colon yields the
`MalformedHeaders` error (and Go's `nil` map, modelled by the `error`
branch carrying no map); otherwise the input is split on `";;"`, each
declaration is split at the first `": "` (preferred) or `":"`, both
parts are trimmed and inserted, and declarations with no colon are
skipped. -/
def parseHeaders (raw : String) : Except String (List (String × String)) :=
  if raw.data = [] then .ok []
  else if containsSub raw.data [':'] = false then .error malformedHeadersMsg
  else
    .ok ((splitOnPair ';' ';' raw.data []).foldl
      (fun m h =>
        if containsSub h [':', ' '] then
          let p := splitFirstAt [':', ' '] h
          mapInsert m (String.mk (trimSpace p.1)) (String.mk (trimSpace p.2))
        else if containsSub h [':'] then
          let p := splitFirstAt [':'] h
          mapInsert m (String.mk (trimSpace p.1)) (String.mk (trimSpace p.2))
        else m)
      [])

/-- Scheme defaulting of src lines 38-41: a seed that does not start with
the four literal characters `"http"` gets `"http://"` prepended.
Go `strings.HasPrefix` is the byte-prefix test, modelled as a character
prefix test on the UTF-8 character lists. -/
def withScheme (url : String) : String :=
  if "http".data.isPrefixOf url.data then url else "http://" ++ url

/-- Embedding of `isUnique` (src lines 181-189) run without interleaving:
`sm.Load(url)` followed, when absent, by `sm.Store(url, true)`.  The
`sync.Map` is modelled as the list of its keys.  Returns the boolean
result together with the updated map. -/
def isUnique (url : String) (sm : List String) : Bool × List String :=
  if url ∈ sm then (false, sm) else (true, url :: sm)

/-- Embedding of `appendResult` (src lines 169-178).  `abs` models
`e.Request.AbsoluteURL` (colly's resolution of `link` against the page
URL `base`), which yields `""` on failure; the result is appended to
`results` only when non-empty and `isUnique` returns true. -/
def appendResult (abs : String → String → String) (base link : String)
    (results sm : List String) : List String × List String :=
  let result := abs base link
  if result = "" then (results, sm)
  else
    let u := isUnique result sm
    if u.1 then (results ++ [result], u.2) else (results, u.2)

/-- One crawl's sequence of `OnHTML` extraction events (src lines 77-91):
each event is a pair of the fetched page's URL and the raw attribute
value (href, script src or form action) found on it, processed in order
by `appendResult`. -/
def runEvents (abs : String → String → String) :
    List (String × String) → List String → List String →
    List String × List String
  | [], results, sm => (results, sm)
  | (base, link) :: evs, results, sm =>
    let r := appendResult abs base link results sm
    runEvents abs evs r.1 r.2

/-- The behaviour StartCrawler delegates to external libraries, supplied
as parameters so the theorems hold for every network behaviour:
`parseHostname` models `extractHostname` (src lines 157-166, Go
`net/url.Parse` plus `Hostname()`); `absoluteURL` models colly's
`Request.AbsoluteURL`; `pageEvents` gives, for a seed URL and the extra
request headers actually sent, the ordered `OnHTML` events the crawl
produces; `fetchedURLs` gives the URLs the engine requests.  The colly
configuration parameters of src lines 52-74 (user agent, allowed
domains, max depth, async, parallelism) select this environment and are
absorbed by it. -/
structure CrawlEnv where
  parseHostname : String → Except String String
  absoluteURL : String → String → String
  pageEvents : String → List (String × String) → List (String × String)
  fetchedURLs : String → List (String × String) → List String

/-- What one `StartCrawler` invocation produces: the returned `results`
slice, the final contents of the package-global map `sm`, the URLs
requested, and the seed URL after scheme defaulting (the value passed to
`extractHostname` and `c.Visit`). -/
structure CrawlOutcome where
  results : List String
  visited : List String
  requests : List String
  seedUsed : String
deriving DecidableEq, Inhabited

/-- The custom headers registered by src lines 32-33 and 94-100:
`headers, _ := parseHeaders(rawHeaders)` discards the error, and the
`OnRequest` callback is registered only when the map is non-nil (Go
returns a nil map exactly on parse failure).  `none` means no callback
is registered. -/
def appliedHeaders (raw : String) : Option (List (String × String)) :=
  (parseHeaders raw).toOption

/-- The extra header pairs actually set on every outgoing request: the
parsed map when the callback is registered, nothing otherwise.  A nil
map (parse failure, no callback) and an empty map (callback that sets
nothing) put the same bytes on the wire. -/
def wireHeaders (raw : String) : List (String × String) :=
  match parseHeaders raw with
  | .error _ => []
  | .ok hs => hs

/-- Embedding of `StartCrawler` (src lines 30-114).  In source order:
parse the headers discarding any error (line 33), create the empty
results slice (line 36), default the scheme (lines 38-41), extract the
hostname and return the empty slice on failure (lines 44-49), otherwise
run the crawl and process every extraction event.  `sm` is the state of
the package-global `sync.Map` (line 28) when the invocation starts:
it is an argument, not a fresh value, precisely because the Go variable
is package-scoped. -/
def StartCrawlerModel (env : CrawlEnv) (url rawHeaders : String)
    (sm : List String) : CrawlOutcome :=
  let hs := wireHeaders rawHeaders
  let seed := withScheme url
  match env.parseHostname seed with
  | .error _ => ⟨[], sm, [], seed⟩
  | .ok _ =>
    let r := runEvents env.absoluteURL (env.pageEvents seed hs) [] sm
    ⟨r.1, r.2, env.fetchedURLs seed hs, seed⟩

/-- The stdin loop of `main` (src lines 233-237): one `StartCrawler`
invocation per seed, strictly sequential.  The second argument of the
recursion is the package-global `sm` (src line 28), which the loop
threads from each invocation to the next because the Go variable
outlives the calls. -/
def mainLoop (env : CrawlEnv) (raw : String) :
    List String → List String → List CrawlOutcome
  | [], _ => []
  | seed :: rest, sm =>
    let o := StartCrawlerModel env seed raw sm
    o :: mainLoop env raw rest o.visited

/-- A concrete single-page environment used to evaluate the model: every
seed parses to hostname `"a"`, the crawl fetches one page
`http://a/` containing one link that resolves to `http://a/x`. -/
def env1 : CrawlEnv where
  parseHostname := fun _ => .ok "a"
  absoluteURL := fun _ link => link
  pageEvents := fun _ _ => [("http://a/", "http://a/x")]
  fetchedURLs := fun _ _ => ["http://a/"]

/-- A concrete environment whose hostname extraction always fails,
while its crawl engine would produce events if it ran. -/
def badEnv : CrawlEnv where
  parseHostname := fun _ => .error "invalid URL"
  absoluteURL := fun _ link => link
  pageEvents := fun _ _ => [("http://b/", "http://b/y")]
  fetchedURLs := fun _ _ => ["http://b/"]

/-- Program counter of one worker executing `isUnique` (src lines
181-189) on a fixed URL, at the granularity of the two `sync.Map`
operations, which are individually atomic but not jointly: `atLoad` is
about to run `sm.Load(url)` (line 182); `loadedPresent b` holds the
`present` value that `Load` returned (line 183); `finished r` has
returned `r`. -/
inductive WorkerPC where
  | atLoad
  | loadedPresent (present : Bool)
  | finished (ret : Bool)
deriving DecidableEq

/-- Shared state of two workers concurrently calling
`appendResult`/`isUnique` with the same already-resolved non-empty URL:
each worker's program counter, the package-global `sm`, and the shared
`results` slice. -/
structure RaceState where
  pc0 : WorkerPC
  pc1 : WorkerPC
  sm : List String
  results : List String
deriving DecidableEq

/-- One atomic step of a worker.  On `Load` it records whether the URL
is present; if present it returns `false`; otherwise it runs
`sm.Store(url, true)` and returns `true`, whereupon its caller
`appendResult` appends the URL to `results` (src line 175; the append
is folded into the same step — the race exhibited lies between the
`Load` and the `Store`, which stay separate steps). -/
def workerStep (url : String) (pc : WorkerPC) (sm results : List String) :
    WorkerPC × List String × List String :=
  match pc with
  | .atLoad => (.loadedPresent (decide (url ∈ sm)), sm, results)
  | .loadedPresent true => (.finished false, sm, results)
  | .loadedPresent false =>
    (.finished true, if url ∈ sm then sm else url :: sm, results ++ [url])
  | .finished r => (.finished r, sm, results)

/-- Run one step of the chosen worker (`false` = worker 0). -/
def raceStep (url : String) (s : RaceState) (tid : Bool) : RaceState :=
  if tid then
    let r := workerStep url s.pc1 s.sm s.results
    { s with pc1 := r.1, sm := r.2.1, results := r.2.2 }
  else
    let r := workerStep url s.pc0 s.sm s.results
    { s with pc0 := r.1, sm := r.2.1, results := r.2.2 }

/-- Execute a schedule: an arbitrary interleaving of the two workers'
atomic steps. -/
def runRace (url : String) (sched : List Bool) (s : RaceState) :
    RaceState :=
  sched.foldl (raceStep url) s

/-- A cell of the C array allocated by `CStartCrawler` (src lines
192-212): `C.malloc` leaves cells uninitialized (`uninit`), and the loop
of src lines 206-208 overwrites cell `idx` with `C.CString(link)`
(`cstr`).  A NUL terminator would be a third kind of value; the model
needs no constructor for it because the code never stores one. -/
inductive CCell where
  | uninit
  | cstr (s : String)
deriving DecidableEq

/-- The marshalling loop of `CStartCrawler` (src lines 197-208): allocate
`len(results) + 1` uninitialized cells, then write `C.CString(results[idx])`
at each `idx < len(results)`.  No write touches the final cell. -/
def cMarshal (results : List String) : List CCell :=
  results.enum.foldl (fun arr p => arr.set p.1 (.cstr p.2))
    (List.replicate (results.length + 1) .uninit)

/-- Embedding of `CStartCrawler` (src lines 192-212): run `StartCrawler`
on the same parameters, then marshal the results into the C array. -/
def CStartCrawlerModel (env : CrawlEnv) (url rawHeaders : String)
    (sm : List String) : List CCell :=
  cMarshal (StartCrawlerModel env url rawHeaders sm).results

/-- Dot-escaping applied to the hostname before it is spliced into the
regular expression (src line 70, `strings.ReplaceAll(hostname, ".", "\\.")`). -/
def escapeDots : List Char → List Char
  | [] => []
  | c :: rest =>
    if c = '.' then '\\' :: '.' :: escapeDots rest else c :: escapeDots rest

/-- The source text of the URL-filter regular expression built at src
line 70 for subdomain mode. -/
def urlFilterRegexSource (hostname : String) : String :=
  ".*(\\.|\\/\\/)" ++ String.mk (escapeDots hostname.data) ++ "((#|\\/|\\?).*)?"

/-- Whether the subdomain-mode URL filter admits `url`.  Colly tests each
request URL with Go `regexp.MatchString`, an unanchored search for the
pattern of `urlFilterRegexSource hostname`.  In that pattern the leading
`.*` and the trailing optional group `((#|\/|\?).*)?` can both match the
empty string, and after dot-escaping the hostname is matched literally
(a hostname contains no other regex metacharacter), so an unanchored
match exists exactly when the URL contains `"." ++ hostname` or
`"//" ++ hostname` as a substring. -/
def urlFilterAdmits (hostname url : String) : Bool :=
  containsSub url.data ('.' :: hostname.data) ||
  containsSub url.data ('/' :: '/' :: hostname.data)

theorem containsSub_single_iff (s : List Char) (a : Char) :
    containsSub s [a] = true ↔ a ∈ s := by
  induction s with
  | nil => simp [containsSub]
  | cons c rest ih =>
    have h1 : containsSub (c :: rest) [a] = ((a == c) || containsSub rest [a]) := by
      show ([a].isPrefixOf (c :: rest) || containsSub rest [a]) = _
      have h2 : [a].isPrefixOf (c :: rest) = (a == c) := by
        simp [List.isPrefixOf]
      rw [h2]
    rw [h1]
    simp only [Bool.or_eq_true, beq_iff_eq, ih, List.mem_cons]

theorem isPrefixOf_append_self (p r : List Char) :
    p.isPrefixOf (p ++ r) = true := by
  induction p with
  | nil => simp
  | cons a as ih => simp [List.isPrefixOf, ih]

theorem containsSub_append_self (sub r : List Char) :
    containsSub (sub ++ r) sub = true := by
  cases sub with
  | nil => cases r <;> simp [containsSub, List.isPrefixOf]
  | cons a as =>
    simp only [List.cons_append, containsSub, Bool.or_eq_true]
    left
    exact isPrefixOf_append_self (a :: as) r

theorem containsSub_extend (l t sub : List Char)
    (h : containsSub t sub = true) : containsSub (l ++ t) sub = true := by
  induction l with
  | nil => simpa
  | cons c l ih =>
    simp only [List.cons_append, containsSub, Bool.or_eq_true]
    right
    exact ih

theorem appendResult_eq (f : String → String → String) (b l : String)
    (res sm : List String) :
    appendResult f b l res sm =
      if f b l = "" then (res, sm)
      else if f b l ∈ sm then (res, sm)
      else (res ++ [f b l], f b l :: sm) := by
  by_cases h1 : f b l = ""
  · simp [appendResult, h1]
  · by_cases h2 : f b l ∈ sm
    · simp [appendResult, isUnique, h1, h2]
    · simp [appendResult, isUnique, h1, h2]

theorem appendResult_visited_mono (f : String → String → String)
    (b l : String) (res sm : List String) (x : String) (hx : x ∈ sm) :
    x ∈ (appendResult f b l res sm).2 := by
  rw [appendResult_eq]
  split_ifs <;> simp [hx]

theorem appendResult_not_readded (f : String → String → String)
    (b l : String) (res sm : List String) (u : String)
    (hu : u ∈ sm) (hr : u ∉ res) :
    u ∉ (appendResult f b l res sm).1 := by
  rw [appendResult_eq]
  split_ifs with h1 h2
  · exact hr
  · exact hr
  · intro hmem
    rcases List.mem_append.1 hmem with h | h
    · exact hr h
    · simp only [List.mem_singleton] at h
      exact h2 (h ▸ hu)

theorem appendResult_results_in_visited (f : String → String → String)
    (b l : String) (res sm : List String) (hsub : ∀ x ∈ res, x ∈ sm) :
    ∀ x ∈ (appendResult f b l res sm).1, x ∈ (appendResult f b l res sm).2 := by
  rw [appendResult_eq]
  split_ifs with h1 h2
  · exact hsub
  · exact hsub
  · intro x hx
    rcases List.mem_append.1 hx with h | h
    · exact List.mem_cons_of_mem _ (hsub x h)
    · simp only [List.mem_singleton] at h
      simp [h]

theorem runEvents_visited_mono (f : String → String → String)
    (evs : List (String × String)) :
    ∀ res sm x, x ∈ sm → x ∈ (runEvents f evs res sm).2 := by
  induction evs with
  | nil => intro res sm x hx; exact hx
  | cons ev evs ih =>
    intro res sm x hx
    obtain ⟨b, l⟩ := ev
    simp only [runEvents]
    exact ih _ _ x (appendResult_visited_mono f b l res sm x hx)

theorem runEvents_not_readded (f : String → String → String)
    (evs : List (String × String)) :
    ∀ res sm u, u ∈ sm → u ∉ res → u ∉ (runEvents f evs res sm).1 := by
  induction evs with
  | nil => intro res sm u _ hr; exact hr
  | cons ev evs ih =>
    intro res sm u hu hr
    obtain ⟨b, l⟩ := ev
    simp only [runEvents]
    exact ih _ _ u (appendResult_visited_mono f b l res sm u hu)
      (appendResult_not_readded f b l res sm u hu hr)

theorem runEvents_results_in_visited (f : String → String → String)
    (evs : List (String × String)) :
    ∀ res sm, (∀ x ∈ res, x ∈ sm) →
      ∀ x ∈ (runEvents f evs res sm).1, x ∈ (runEvents f evs res sm).2 := by
  induction evs with
  | nil => intro res sm hsub; exact hsub
  | cons ev evs ih =>
    intro res sm hsub
    obtain ⟨b, l⟩ := ev
    simp only [runEvents]
    exact ih _ _ (appendResult_results_in_visited f b l res sm hsub)

theorem seedUsed_eq (env : CrawlEnv) (u raw : String) (sm : List String) :
    (StartCrawlerModel env u raw sm).seedUsed = withScheme u := by
  simp only [StartCrawlerModel]
  cases hp : env.parseHostname (withScheme u) <;> simp

/-- C1, counterexample.  The claim says the second of two sequential
crawls in the same process run starts with fresh deduplication state, so
the URL `http://a/x` recorded by the first crawl would be recorded again
when the second crawl rediscovers it.  Running `main`'s loop on two
identical seeds against the same one-page site refutes this: the
package-global `sm` carries over, and the second crawl's result list is
empty. -/
theorem visitedSet_persists_counterexample :
    ("http://a/x" ∈ ((mainLoop env1 "" ["a", "a"] []).getD 0 default).results) ∧
    "http://a/x" ∉ ((mainLoop env1 "" ["a", "a"] []).getD 1 default).results := by
  decide

/-- C1, amended: the `sync.Map` named `sm` is package-global (src line
28), not crawl-scoped, so deduplication state survives across sequential
`StartCrawler` invocations in one process run: every URL recorded in the
first crawl's result list is NOT recorded again by a second crawl that
starts from the first crawl's final map — whatever environments, seeds
and headers the two crawls use. -/
theorem visitedSet_global_dedup_across_crawls (env env2 : CrawlEnv)
    (seed1 seed2 raw1 raw2 u : String)
    (h : u ∈ (StartCrawlerModel env seed1 raw1 []).results) :
    u ∉ (StartCrawlerModel env2 seed2 raw2
        (StartCrawlerModel env seed1 raw1 []).visited).results := by
  have h1 : u ∈ (StartCrawlerModel env seed1 raw1 []).visited := by
    simp only [StartCrawlerModel] at h ⊢
    cases hp : env.parseHostname (withScheme seed1) with
    | error e =>
      rw [hp] at h
      exact absurd h (List.not_mem_nil u)
    | ok host =>
      rw [hp] at h
      exact runEvents_results_in_visited _ _ [] [] (by simp) u h
  simp only [StartCrawlerModel]
  cases hp2 : env2.parseHostname (withScheme seed2) with
  | error e => exact List.not_mem_nil u
  | ok host => exact runEvents_not_readded _ _ [] _ u h1 (by simp)

/-- Witness for C1 (amended), at the concrete two-crawl run of the
counterexample. -/
theorem visitedSet_global_dedup_across_crawls_witness :
    ("http://a/x" ∈ (StartCrawlerModel env1 "a" "" []).results) ∧
    "http://a/x" ∉ (StartCrawlerModel env1 "a" ""
        (StartCrawlerModel env1 "a" "" []).visited).results :=
  ⟨by decide,
   visitedSet_global_dedup_across_crawls env1 env1 "a" "a" "" "" "http://a/x"
     (by decide)⟩

/-- C3: `isUnique` is NOT an atomic test-and-set.  It runs `sm.Load`
(src line 182) and `sm.Store` (src line 187) as two separate atomic
operations with no mutual exclusion around the pair, so under the
interleaving Load(0), Load(1), Store(0), Store(1) of two workers calling
it with the same URL, both callers receive `true` — contradicting the
claim that exactly one of N concurrent callers receives `true`. -/
theorem isUnique_check_then_set_race :
    (runRace "http://x/" [false, true, false, true]
        ⟨.atLoad, .atLoad, [], []⟩).pc0 = .finished true ∧
    (runRace "http://x/" [false, true, false, true]
        ⟨.atLoad, .atLoad, [], []⟩).pc1 = .finished true := by
  decide

/-- C4, counterexample.  The subdomain-mode filter admits
`http://example.com.evil.com/z` for seed hostname `example.com`: the
URL contains `//example.com` as a substring and Go's `MatchString` is an
unanchored search whose trailing group is optional, so the claimed
anchoring against partial matches does not exist. -/
theorem urlFilter_partial_match_counterexample :
    urlFilterAdmits "example.com" "http://example.com.evil.com/z" = true := by
  decide

/-- C4, amended: the subdomain-mode filter admits exactly the URLs that
contain the seed hostname preceded by a dot or by two slashes.  This
admits `http://api.example.com/y` (and any `http://<sub>.<host><path>`),
rejects `http://notexample.com/z`, but it is not anchored on the right,
so a URL whose hostname merely embeds the seed hostname, such as
`http://example.com.evil.com/z`, IS admitted. -/
theorem urlFilter_admits_characterization :
    (∀ host sub path : String,
      urlFilterAdmits host ("http://" ++ sub ++ "." ++ host ++ path) = true) ∧
    urlFilterAdmits "example.com" "http://api.example.com/y" = true ∧
    urlFilterAdmits "example.com" "http://example.com/" = true ∧
    urlFilterAdmits "example.com" "http://notexample.com/z" = false ∧
    urlFilterAdmits "example.com" "http://example.com.evil.com/z" = true := by
  refine ⟨?_, by decide, by decide, by decide, by decide⟩
  intro host sub path
  have h2 : containsSub (('.' :: host.data) ++ path.data) ('.' :: host.data) = true :=
    containsSub_append_self _ _
  have h3 := containsSub_extend ("http://".data ++ sub.data) _ _ h2
  have hdata : ("http://" ++ sub ++ "." ++ host ++ path).data
      = ("http://".data ++ sub.data) ++ (('.' :: host.data) ++ path.data) := by
    have hdot : ".".data = ['.'] := rfl
    simp [String.data_append, hdot, List.append_assoc]
  unfold urlFilterAdmits
  rw [Bool.or_eq_true]
  left
  rw [hdata]
  exact h3

/-- C5: the three specified evaluations of `parseHeaders`.
`"Cookie: a=b;;Referer: http://x/"` parses to the two-entry mapping
(the association list is the map in insertion order), `"badheader"`
fails with the `MalformedHeaders` error, and `""` parses to the empty
mapping with no error. -/
theorem parseHeaders_examples :
    parseHeaders "Cookie: a=b;;Referer: http://x/" =
      .ok [("Cookie", "a=b"), ("Referer", "http://x/")] ∧
    parseHeaders "badheader" = .error malformedHeadersMsg ∧
    parseHeaders "" = .ok [] :=
  ⟨rfl, rfl, rfl⟩

/-- C6: whenever hostname extraction fails on the (scheme-defaulted)
seed, `StartCrawler` short-circuits: it returns the empty result list,
leaves the visited map untouched, and issues no HTTP request — for every
environment, seed, header string and prior map state. -/
theorem startCrawler_short_circuit_on_invalid_seed (env : CrawlEnv)
    (url rawHeaders : String) (sm : List String) (e : String)
    (h : env.parseHostname (withScheme url) = .error e) :
    StartCrawlerModel env url rawHeaders sm = ⟨[], sm, [], withScheme url⟩ := by
  simp only [StartCrawlerModel]
  rw [h]

/-- Witness for C6: a concrete environment whose hostname extraction
always fails, with a crawl engine that would produce events if it ran;
the invocation returns no results and issues no requests. -/
theorem startCrawler_short_circuit_witness :
    badEnv.parseHostname (withScheme "%%") = .error "invalid URL" ∧
    StartCrawlerModel badEnv "%%" "Cookie: a=b" ["http://old/"] =
      ⟨[], ["http://old/"], [], "http://%%"⟩ :=
  ⟨rfl, by
    rw [startCrawler_short_circuit_on_invalid_seed badEnv "%%" "Cookie: a=b"
      ["http://old/"] "invalid URL" rfl]
    decide⟩

/-- C7: for every non-empty raw header string with no colon,
`parseHeaders` fails with the `MalformedHeaders` error, `StartCrawler`
registers no custom-header callback (the error is discarded at src line
33 and the nil map fails the check at line 94), and the crawl proceeds
exactly as it would with no custom headers — the failure is not
surfaced, since the model (like the Go function) returns only the
result list. -/
theorem parseHeaders_failure_crawl_proceeds (raw : String)
    (hne : raw.data ≠ []) (hcolon : ':' ∉ raw.data) :
    parseHeaders raw = .error malformedHeadersMsg ∧
    appliedHeaders raw = none ∧
    ∀ (env : CrawlEnv) (url : String) (sm : List String),
      StartCrawlerModel env url raw sm = StartCrawlerModel env url "" sm := by
  have hc : containsSub raw.data [':'] = false := by
    cases hcs : containsSub raw.data [':']
    · rfl
    · exact absurd ((containsSub_single_iff raw.data ':').1 hcs) hcolon
  have hperr : parseHeaders raw = .error malformedHeadersMsg := by
    unfold parseHeaders
    rw [if_neg hne, if_pos hc]
  refine ⟨hperr, ?_, ?_⟩
  · rw [appliedHeaders, hperr]
    rfl
  · intro env url sm
    have hw : wireHeaders raw = wireHeaders "" := by
      unfold wireHeaders
      rw [hperr]
      rfl
    simp only [StartCrawlerModel, hw]

/-- Witness for C7 at the raw header string of the specification,
`"badheader"`, in the concrete one-page environment. -/
theorem parseHeaders_failure_crawl_proceeds_witness :
    parseHeaders "badheader" = .error malformedHeadersMsg ∧
    appliedHeaders "badheader" = none ∧
    StartCrawlerModel env1 "a" "badheader" [] = StartCrawlerModel env1 "a" "" [] :=
  ⟨(parseHeaders_failure_crawl_proceeds "badheader" (by decide) (by decide)).1,
   (parseHeaders_failure_crawl_proceeds "badheader" (by decide) (by decide)).2.1,
   (parseHeaders_failure_crawl_proceeds "badheader" (by decide) (by decide)).2.2
     env1 "a" []⟩

/-- C8: evaluated at a crawl returning one result, the marshalled C
array holds the result string at entry 0, but the entry after the last
result is the uninitialized `malloc` cell: the loop of src lines 206-208
writes only indices below `len(results)`, `C.malloc` does not zero
memory, and no statement ever stores the NUL terminator the comment at
src line 198 announces. -/
theorem cStartCrawler_terminator_unwritten :
    (StartCrawlerModel env1 "a" "" []).results = ["http://a/x"] ∧
    CStartCrawlerModel env1 "a" "" [] = [.cstr "http://a/x", .uninit] := by
  decide

/-- C9: the returned result list can contain duplicates.  Two workers
concurrently running `appendResult` on the same resolved URL
`http://dup/` under the interleaving Load(0), Load(1), Store(0),
Store(1) both see the URL as unseen and both append it, so the result
list is `["http://dup/", "http://dup/"]` — not duplicate-free. -/
theorem appendResult_race_duplicate_results :
    (runRace "http://dup/" [false, true, false, true]
        ⟨.atLoad, .atLoad, [], []⟩).results = ["http://dup/", "http://dup/"] ∧
    ¬ (runRace "http://dup/" [false, true, false, true]
        ⟨.atLoad, .atLoad, [], []⟩).results.Nodup := by
  decide

/-- C10: scheme defaulting tests only the literal prefix `"http"`.  For
every invocation the seed actually used (passed to `extractHostname` and
visited) is the input when it starts with `"http"` and `"http://" ++`
the input otherwise; in particular `"ftp://example.com"` becomes
`"http://ftp://example.com"` and the non-URL `"httpfoo"` is used
unchanged. -/
theorem startCrawler_scheme_defaulting :
    (∀ (env : CrawlEnv) (u raw : String) (sm : List String),
      (StartCrawlerModel env u raw sm).seedUsed =
        if "http".data.isPrefixOf u.data then u else "http://" ++ u) ∧
    (∀ (env : CrawlEnv) (raw : String) (sm : List String),
      (StartCrawlerModel env "ftp://example.com" raw sm).seedUsed =
        "http://ftp://example.com") ∧
    (∀ (env : CrawlEnv) (raw : String) (sm : List String),
      (StartCrawlerModel env "httpfoo" raw sm).seedUsed = "httpfoo") := by
  refine ⟨?_, ?_, ?_⟩
  · intro env u raw sm
    rw [seedUsed_eq]
    rfl
  · intro env raw sm
    rw [seedUsed_eq]
    decide
  · intro env raw sm
    rw [seedUsed_eq]
    decide

end RockRawler
